import Mathlib

/-!
Verification development for the HOA management console
(`src/management_app.py`): a Flask application over Postgres that manages
HOA tenants (registry rows in `public.hoas`), per-tenant login accounts
(`public.hoa_users`), per-tenant database schemas, and a single
super-administrator credential (`public.super_admins`).

The database state is embedded shallowly: each table is a list of row
structures (list order models physical row order, which is what an
unordered `LIMIT 1` sees), per-tenant schemas are an association list
from schema name to the set of created objects, and every route handler
becomes a pure function from the old database state (plus the request
inputs and the ambient date/time, which SQL reads via `CURRENT_DATE` /
`now()`) to the new state.  SHA-256 is kept abstract: every operation
that hashes takes the hash function as an explicit parameter, exactly as
`hash_password` is a fixed function in the source.
-/

namespace ManagementApp

/-! ### slugify (src/management_app.py lines 133-134)

`slugify(name)` is `re.sub(r"[^a-z0-9]+", "_", name.lower()).strip("_")`.
We model `str.lower` on ASCII letters (a non-ASCII character is not in
`[a-z0-9]` and is replaced by an underscore either way), the regex
substitution as per-character replacement followed by collapsing adjacent
underscores (replacing each maximal non-`[a-z0-9]` run by one `_`), and
`.strip("_")` as dropping leading and trailing underscores. -/

/-- ASCII lowercasing of one character, as `str.lower()` acts on ASCII. -/
def pyLower (c : Char) : Char :=
  if 65 ≤ c.toNat ∧ c.toNat ≤ 90 then Char.ofNat (c.toNat + 32) else c

/-- Membership in the regex character class `[a-z0-9]`. -/
def isSlugChar (c : Char) : Bool :=
  (97 ≤ c.toNat && c.toNat ≤ 122) || (48 ≤ c.toNat && c.toNat ≤ 57)

/-- Per-character substitution step of `re.sub(r"[^a-z0-9]+", "_", s)`. -/
def subChar (c : Char) : Char :=
  if isSlugChar c then c else '_'

/-- Collapse each maximal run of underscores to a single underscore (the
`+` in the regex makes one `_` out of each non-matching run). -/
def collapseUS : List Char → List Char
  | [] => []
  | [c] => [c]
  | c :: d :: rest =>
    if c == '_' && d == '_' then collapseUS (d :: rest)
    else c :: collapseUS (d :: rest)

/-- Left half of `.strip("_")`. -/
def dropLeadingUS (l : List Char) : List Char :=
  l.dropWhile (fun c => c == '_')

/-- Right half of `.strip("_")`. -/
def dropTrailingUS : List Char → List Char
  | [] => []
  | c :: rest =>
    match dropTrailingUS rest with
    | [] => if c == '_' then [] else [c]
    | d :: r => c :: d :: r

def stripUS (l : List Char) : List Char :=
  dropTrailingUS (dropLeadingUS l)

/-- `slugify` from the source. -/
def slugify (name : String) : String :=
  String.mk (stripUS (collapseUS ((name.data.map pyLower).map subChar)))

/-- The alphabet the spec promises for slug outputs: lowercase
alphanumerics and underscores. -/
def isSlugOutputChar (c : Char) : Bool :=
  isSlugChar c || c == '_'

/-! ### Data model

Row structures for the three `public` tables created by
`init_management_schema` (lines 67-121) and for the objects created
inside a tenant schema by `provision_hoa_schema` (lines 136-227).
Dates (`DATE`) and timestamps (`TIMESTAMPTZ`) are modelled as `Int`
(SQL only ever compares them); `NULL`able columns become `Option`. -/

structure AdminRow where
  id : Nat
  username : String
  password : String
  enabled : Bool
  deriving DecidableEq, Repr

structure HoaRow where
  id : Nat
  name : String
  schema_name : String
  subscription_start : Int
  subscription_end : Int
  enabled : Bool
  portal_title : Option String
  brand_color : Option String
  logo_url : Option String
  created_at : Int
  deleted_at : Option Int
  deriving DecidableEq, Repr

structure HoaUserRow where
  id : Nat
  hoa_id : Nat
  email : String
  password : String
  enabled : Bool
  created_at : Int
  deriving DecidableEq, Repr

/-- The one-row configuration table `developer_settings` inside a tenant
schema (`id INTEGER PRIMARY KEY CHECK (id = 1)`, defaults from the DDL). -/
structure DevSettingsRow where
  id : Nat
  is_active : Bool
  base_votes : Int
  proxy_count : Int
  comment : Option String
  deriving DecidableEq, Repr

/-- The objects provisioned inside one tenant schema.  The application
never writes to the tenant tables other than `developer_settings`, so
only the created object names and the `developer_settings` rows are
state. -/
structure TenantSchema where
  tables : List String
  indexes : List String
  developer_settings : List DevSettingsRow
  deriving DecidableEq, Repr

/-- The whole database: the three `public` tables plus the created
tenant schemas, keyed by schema name.  List order models physical row
order (what an `ORDER BY`-less `LIMIT 1` sees). -/
structure Database where
  super_admins : List AdminRow
  hoas : List HoaRow
  hoa_users : List HoaUserRow
  schemas : List (String × TenantSchema)
  deriving DecidableEq, Repr

/-- What a handler hands back to the browser, where a claim cares. -/
inductive Outcome where
  | errorView : Outcome
  | redirect : Outcome
  deriving DecidableEq, Repr

/-! ### Password policy (lines 54-61) -/

/-- `verify_password(stored, provided)`: a stored value whose length is
not the SHA-256 hex-digest length 64 is legacy plaintext and compared
directly; otherwise the provided password is hashed and compared.
`hash` stands for `hash_password`. -/
def verify_password (hash : String → String) (stored provided : String) : Bool :=
  if stored.length ≠ 64 then stored == provided else stored == hash provided

/-! ### Subscription expiry enforcer (lines 34-48) -/

/-- Effect of `UPDATE public.hoas SET enabled = FALSE WHERE
subscription_end < CURRENT_DATE AND enabled = TRUE AND deleted_at IS
NULL` on one row. -/
def expireHoaRow (today : Int) (r : HoaRow) : HoaRow :=
  if r.subscription_end < today ∧ r.enabled = true ∧ r.deleted_at = none then
    { r with enabled := false }
  else r

/-- `enforce_subscription_expiry()`, run by the `before_request` hook. -/
def enforce_subscription_expiry (today : Int) (db : Database) : Database :=
  { db with hoas := db.hoas.map (expireHoaRow today) }

/-! ### Login (lines 282-310) and bootstrap seeding (lines 112-118) -/

/-- The login lookup: `SELECT * FROM public.super_admins WHERE
username=%s AND enabled=TRUE`, `fetchone`, then `verify_password`. -/
def authenticate (hash : String → String) (db : Database) (u p : String) :
    Option AdminRow :=
  match (db.super_admins.filter (fun a => a.username == u && a.enabled)).head? with
  | none => none
  | some admin => if verify_password hash admin.password p then some admin else none

/-- The seeding step of `init_management_schema`: insert
`("admin", hash_password("admin123"), TRUE)` only when no enabled row
exists.  (The `CREATE TABLE IF NOT EXISTS` statements for the `public`
tables set up the fixed shape of `Database` itself and carry no state
here.)  `newId` is the id the `BIGSERIAL` sequence assigns. -/
def init_management_schema (hash : String → String) (db : Database) (newId : Nat) :
    Database :=
  if (db.super_admins.filter (fun a => a.enabled)).head?.isSome then db
  else
    { db with super_admins :=
        db.super_admins ++ [⟨newId, "admin", hash "admin123", true⟩] }

/-! ### Tenant schema provisioner (lines 136-227) -/

/-- `CREATE TABLE IF NOT EXISTS` / `CREATE UNIQUE INDEX IF NOT EXISTS`
semantics on a list of created object names. -/
def addTableIfAbsent (t : String) (ts : List String) : List String :=
  if t ∈ ts then ts else ts ++ [t]

/-- Run a fixed sequence of create-if-not-exists statements in order. -/
def addTables (names : List String) (ts : List String) : List String :=
  names.foldl (fun acc n => addTableIfAbsent n acc) ts

/-- The tables `provision_hoa_schema` creates, in statement order. -/
def provisionedTables : List String :=
  ["owners", "registrations", "topics", "options", "votes",
   "developer_settings", "developer_proxies", "owner_proxies"]

/-- The row inserted by `INSERT INTO {schema}.developer_settings (id)
VALUES (1) ON CONFLICT (id) DO NOTHING`: id 1, all other columns at
their DDL defaults. -/
def defaultDevSettingsRow : DevSettingsRow :=
  ⟨1, false, 0, 0, none⟩

/-- Effect of the statement sequence of `provision_hoa_schema` inside
the (now existing) schema: the eight `CREATE TABLE IF NOT EXISTS`, the
`CREATE UNIQUE INDEX IF NOT EXISTS uniq_vote`, and the final
insert-if-absent into `developer_settings`. -/
def provisionTables (ts : TenantSchema) : TenantSchema :=
  { tables := addTables provisionedTables ts.tables,
    indexes := addTableIfAbsent "uniq_vote" ts.indexes,
    developer_settings :=
      if ts.developer_settings.any (fun r => r.id == 1) then ts.developer_settings
      else ts.developer_settings ++ [defaultDevSettingsRow] }

/-- `provision_hoa_schema(schema_name)`: `CREATE SCHEMA IF NOT EXISTS`
followed by the table/index/insert statements inside that schema. -/
def provision_hoa_schema (db : Database) (schema_name : String) : Database :=
  let db1 :=
    if db.schemas.any (fun p => p.1 == schema_name) then db
    else { db with schemas := db.schemas ++ [(schema_name, ⟨[], [], []⟩)] }
  { db1 with schemas :=
      db1.schemas.map (fun p =>
        if p.1 = schema_name then (p.1, provisionTables p.2) else p) }

/-! ### HOA create (lines 321-397) -/

/-- Python falsiness of `request.form.get(k) or default`: `None` and the
empty string both fall back. -/
def formOr (v : Option String) (default : String) : String :=
  match v with
  | none => default
  | some s => if s = "" then default else s

/-- POST `/dashboard/hoa-create`: insert the registry row (branding
fields defaulted via `or`), then provision the schema derived from the
name.  `newId` is the id `RETURNING id` hands back, `created_at` the
`now()` default. -/
def hoa_create_post (db : Database) (newId : Nat) (name : String)
    (start end_ : Int) (portal_title brand_color logo_url : Option String)
    (created_at : Int) : Database :=
  let schema_name := "hoa_" ++ slugify name
  let row : HoaRow :=
    { id := newId, name := name, schema_name := schema_name,
      subscription_start := start, subscription_end := end_, enabled := true,
      portal_title := some (formOr portal_title name),
      brand_color := some (formOr brand_color "#2563eb"),
      logo_url := logo_url, created_at := created_at, deleted_at := none }
  provision_hoa_schema { db with hoas := db.hoas ++ [row] } schema_name

/-! ### HOA user create (lines 403-449) -/

/-- POST `/dashboard/hoa-user-create`: inserts the row directly; note
the password is stored raw in this revision. -/
def hoa_user_create_post (db : Database) (newId : Nat) (hoa_id : Nat)
    (email password : String) (created_at : Int) : Database :=
  { db with hoa_users :=
      db.hoa_users ++ [⟨newId, hoa_id, email, password, true, created_at⟩] }

/-! ### Manage-HOA listing (lines 455-471) -/

/-- Byte-wise lexicographic comparison of names, modelling `ORDER BY
name`. -/
def charListLt : List Char → List Char → Bool
  | [], [] => false
  | [], _ :: _ => true
  | _ :: _, [] => false
  | a :: as, b :: bs =>
    if a.toNat < b.toNat then true
    else if b.toNat < a.toNat then false
    else charListLt as bs

def nameLt (r x : HoaRow) : Bool :=
  charListLt r.name.data x.name.data

def insertByName (r : HoaRow) : List HoaRow → List HoaRow
  | [] => [r]
  | x :: xs => if nameLt x r then x :: insertByName r xs else r :: x :: xs

def sortByName : List HoaRow → List HoaRow
  | [] => []
  | x :: xs => insertByName x (sortByName xs)

/-- GET `/dashboard/manage-hoa`: `SELECT * FROM public.hoas WHERE
deleted_at IS NULL ORDER BY name`. -/
def manage_hoa_listing (db : Database) : List HoaRow :=
  sortByName (db.hoas.filter (fun r => r.deleted_at == none))

/-! ### Recycle bin actions (lines 595-712) -/

/-- GET `/restore-hoa/{id}`: `UPDATE public.hoas SET deleted_at = NULL,
enabled = TRUE WHERE id=%s`. -/
def restore_hoa (db : Database) (id : Nat) : Database :=
  { db with hoas :=
      db.hoas.map (fun r =>
        if r.id = id then { r with deleted_at := none, enabled := true } else r) }

/-- POST `/permanent-delete-hoa/{id}`: re-authenticates against `SELECT
password FROM public.super_admins LIMIT 1` (note: no `enabled=TRUE`
filter — the first physical row), then, when the tenant exists, drops
its schema (cascade), deletes its `hoa_users` rows, and deletes its
registry row. -/
def permanent_delete_hoa_post (hash : String → String) (db : Database)
    (id : Nat) (password : String) : Database × Outcome :=
  match db.super_admins.head? with
  | none => (db, Outcome.errorView)
  | some admin =>
    if verify_password hash admin.password password then
      match db.hoas.find? (fun r => r.id == id) with
      | none => (db, Outcome.redirect)
      | some hoa =>
        ({ db with
            schemas := db.schemas.filter (fun p => p.1 != hoa.schema_name),
            hoa_users := db.hoa_users.filter (fun u => u.hoa_id != id),
            hoas := db.hoas.filter (fun r => r.id != id) },
         Outcome.redirect)
    else (db, Outcome.errorView)

/-! ### Security / credential rotation (lines 762-812) -/

/-- `UPDATE public.super_admins SET enabled=FALSE` followed by `UPDATE
public.super_admins SET username=%s, password=%s, enabled=TRUE WHERE
id=%s`. -/
def rotateAdmins (adminId : Nat) (new_user hashed : String)
    (l : List AdminRow) : List AdminRow :=
  (l.map (fun a => { a with enabled := false })).map
    (fun a =>
      if a.id = adminId then
        { a with username := new_user, password := hashed, enabled := true }
      else a)

/-- POST `/dashboard/security`.  Returns `none` when the handler would
crash (`admin["id"]` with no enabled administrator row), otherwise the
new database state and the session identity written (or `none` when the
input was rejected and nothing changed).  The form inputs are
whitespace-stripped before validation; stripping is modelled by
`pyStrip` applied by the caller. -/
def dashboard_security_post (hash : String → String) (db : Database)
    (new_user new_pass : String) : Option (Database × Option String) :=
  if new_user.length < 3 then some (db, none)
  else if new_pass.length < 6 then some (db, none)
  else
    match (db.super_admins.filter (fun a => a.enabled)).head? with
    | none => none
    | some admin =>
      let sa := rotateAdmins admin.id new_user (hash new_pass) db.super_admins
      some ({ db with super_admins := sa }, some new_user)

/-- Python `.strip()` on the form fields (whitespace only), modelled on
the character list. -/
def isPyWhitespace (c : Char) : Bool :=
  c == ' ' || c == '\t' || c == '\n' || c == '\r'

def pyStrip (s : String) : String :=
  String.mk
    (((s.data.dropWhile isPyWhitespace).reverse.dropWhile isPyWhitespace).reverse)

/-! ### Toggle / edit / delete actions (lines 818-1026) -/

/-- GET `/toggle-hoa/{id}`: `UPDATE public.hoas SET enabled = NOT
enabled WHERE id=%s`. -/
def toggle_hoa (db : Database) (id : Nat) : Database :=
  { db with hoas :=
      db.hoas.map (fun r => if r.id = id then { r with enabled := !r.enabled } else r) }

/-- GET `/toggle-user/{id}`. -/
def toggle_user (db : Database) (id : Nat) : Database :=
  { db with hoa_users :=
      db.hoa_users.map (fun u =>
        if u.id = id then { u with enabled := !u.enabled } else u) }

/-- POST `/dashboard/manage-hoa/{id}/edit`: `UPDATE public.hoas SET
subscription_start=%s, subscription_end=%s, enabled=TRUE WHERE id=%s`
— no validation of the dates at all. -/
def edit_hoa_post (db : Database) (id : Nat) (start end_ : Int) : Database :=
  { db with hoas :=
      db.hoas.map (fun r =>
        if r.id = id then
          { r with subscription_start := start, subscription_end := end_,
                   enabled := true }
        else r) }

/-- GET `/delete-user/{id}`. -/
def delete_user (db : Database) (id : Nat) : Database :=
  { db with hoa_users := db.hoa_users.filter (fun u => u.id != id) }

/-- POST `/delete-hoa/{id}`: re-authenticates against the enabled
administrator row (`WHERE enabled=TRUE LIMIT 1`), then soft-deletes:
`UPDATE public.hoas SET deleted_at = NOW(), enabled = FALSE WHERE
id=%s`.  The schema is explicitly not dropped. -/
def delete_hoa_post (hash : String → String) (db : Database) (id : Nat)
    (password : String) (now : Int) : Database × Outcome :=
  match (db.super_admins.filter (fun a => a.enabled)).head? with
  | none => (db, Outcome.errorView)
  | some admin =>
    if verify_password hash admin.password password then
      match db.hoas.find? (fun r => r.id == id) with
      | none => (db, Outcome.redirect)
      | some _ =>
        ({ db with hoas :=
            db.hoas.map (fun r =>
              if r.id = id then { r with deleted_at := some now, enabled := false }
              else r) },
         Outcome.redirect)
    else (db, Outcome.errorView)

/-- The administrator-uniqueness invariant of the spec: at most one
enabled `super_admins` row. -/
@[reducible] def adminInvariant (db : Database) : Prop :=
  (db.super_admins.filter (fun a => a.enabled)).length ≤ 1

/-- A concrete executable stand-in for SHA-256 used only to evaluate
the model on closed inputs: always 64 characters long. -/
def testHash (p : String) : String :=
  String.mk (p.data.take 64 ++ List.replicate (64 - p.data.length) 'x')

/-! ### Concrete sample database states used to evaluate the model -/

def adminW : AdminRow := ⟨1, "admin", testHash "admin123", true⟩

def hoaW : HoaRow := ⟨1, "Oak", "hoa_oak", 0, 100, true, none, none, none, 0, none⟩

def dbW : Database :=
  ⟨[adminW], [hoaW], [⟨1, 1, "owner@oak.test", "pw", true, 0⟩],
   [("hoa_oak", ⟨["owners"], ["uniq_vote"], [defaultDevSettingsRow]⟩)]⟩

def rowW2 : HoaRow := ⟨2, "Elm", "hoa_elm", 0, 10, true, none, none, none, 0, none⟩

def dbW2 : Database := ⟨[], [rowW2], [], []⟩

def dbW3 : Database := ⟨[⟨1, "admin", testHash "secret123", true⟩], [], [], []⟩

def dbW3b : Database := ⟨[⟨1, "admin", testHash "oldpass1", true⟩], [], [], []⟩

/-- A registry state where the first physical `super_admins` row is a
stale disabled credential and the enabled one sits behind it. -/
def dbW4 : Database :=
  ⟨[⟨1, "admin", testHash "oldpass1", false⟩, ⟨2, "admin", testHash "newpass1", true⟩],
   [⟨1, "Oak", "hoa_oak", 0, 100, false, none, none, none, 0, some 5⟩],
   [⟨1, 1, "owner@oak.test", "pw", true, 0⟩],
   [("hoa_oak", ⟨["owners"], [], []⟩)]⟩

def dbW7 : Database :=
  ⟨[⟨1, "admin", testHash "admin123", true⟩, ⟨2, "old", "legacy", false⟩], [], [], []⟩

def dbW7rot : Database :=
  ⟨[⟨1, "newadmin", testHash "newpass123", true⟩, ⟨2, "old", "legacy", false⟩], [], [], []⟩

def rowW10 : HoaRow := ⟨7, "Pine", "hoa_pine", 0, 10, false, none, none, none, 0, none⟩

def dbW10 : Database := ⟨[], [rowW10], [], []⟩

lemma subChar_isSlugOutput (c : Char) : isSlugOutputChar (subChar c) = true := by
  unfold subChar isSlugOutputChar
  by_cases h : isSlugChar c
  · simp [h]
  · simp [h]

lemma mem_collapseUS : ∀ (l : List Char) (c : Char), c ∈ collapseUS l → c ∈ l
  | [], c, h => by simp [collapseUS] at h
  | [d], c, h => by simpa [collapseUS] using h
  | a :: b :: rest, c, h => by
    by_cases hab : (a == '_' && b == '_') = true
    · have := mem_collapseUS (b :: rest) c (by simpa [collapseUS, hab] using h)
      exact List.mem_cons_of_mem _ this
    · have h' : c = a ∨ c ∈ collapseUS (b :: rest) := by
        simpa [collapseUS, hab] using h
      rcases h' with h1 | h1
      · simp [h1]
      · exact List.mem_cons_of_mem _ (mem_collapseUS (b :: rest) c h1)

lemma collapseUS_head? : ∀ l : List Char, (collapseUS l).head? = l.head?
  | [] => rfl
  | [_] => rfl
  | a :: b :: rest => by
    have h1 := collapseUS_head? (b :: rest)
    by_cases hab : (a == '_' && b == '_') = true
    · have hab' := (Bool.and_eq_true _ _).mp hab
      have ha : a = '_' := eq_of_beq hab'.1
      have hb : b = '_' := eq_of_beq hab'.2
      subst ha
      subst hb
      have h2 : collapseUS ('_' :: '_' :: rest) = collapseUS ('_' :: rest) := by
        simp [collapseUS]
      rw [h2, h1]
      rfl
    · have h2 : collapseUS (a :: b :: rest) = a :: collapseUS (b :: rest) := by
        simp [collapseUS, hab]
      rw [h2]
      rfl

/-- No two adjacent underscores. -/
def noAdjUS : List Char → Bool
  | [] => true
  | [_] => true
  | a :: b :: rest => !(a == '_' && b == '_') && noAdjUS (b :: rest)

lemma noAdjUS_tail : ∀ (a : Char) (l : List Char), noAdjUS (a :: l) = true → noAdjUS l = true
  | _, [], _ => rfl
  | a, b :: rest, h => by
    have : (!(a == '_' && b == '_') && noAdjUS (b :: rest)) = true := h
    exact ((Bool.and_eq_true _ _).mp this).2

lemma noAdjUS_cons (c : Char) (l : List Char) (hl : noAdjUS l = true)
    (hh : ∀ x, l.head? = some x → ¬(c = '_' ∧ x = '_')) : noAdjUS (c :: l) = true := by
  cases l with
  | nil => rfl
  | cons x rest =>
    have hx := hh x rfl
    have hcx : (c == '_' && x == '_') = false := by
      by_cases hc : c = '_'
      · by_cases hx' : x = '_'
        · exact absurd ⟨hc, hx'⟩ hx
        · simp [hx']
      · simp [hc]
    show (!(c == '_' && x == '_') && noAdjUS (x :: rest)) = true
    rw [hcx, hl]
    rfl

lemma noAdjUS_collapseUS : ∀ l : List Char, noAdjUS (collapseUS l) = true
  | [] => rfl
  | [_] => rfl
  | a :: b :: rest => by
    by_cases hab : (a == '_' && b == '_') = true
    · simpa [collapseUS, hab] using noAdjUS_collapseUS (a :: b :: rest |>.tail)
    · have ih := noAdjUS_collapseUS (b :: rest)
      have hh := collapseUS_head? (b :: rest)
      have : collapseUS (a :: b :: rest) = a :: collapseUS (b :: rest) := by
        simp [collapseUS, hab]
      rw [this]
      apply noAdjUS_cons _ _ ih
      intro x hx
      rw [hh] at hx
      have hx' : x = b := by simpa using hx.symm
      subst hx'
      intro hcontra
      exact hab (by simp [hcontra.1, hcontra.2])

lemma collapseUS_eq_self : ∀ l : List Char, noAdjUS l = true → collapseUS l = l
  | [], _ => rfl
  | [_], _ => rfl
  | a :: b :: rest, h => by
    have h1 : (!(a == '_' && b == '_') && noAdjUS (b :: rest)) = true := h
    have h2 := (Bool.and_eq_true _ _).mp h1
    have hab : (a == '_' && b == '_') = false := by
      cases hv : (a == '_' && b == '_')
      · rfl
      · rw [hv] at h2; exact absurd h2.1 (by simp)
    simp [collapseUS, hab, collapseUS_eq_self (b :: rest) h2.2]

lemma noAdjUS_dropWhile (p : Char → Bool) :
    ∀ l : List Char, noAdjUS l = true → noAdjUS (l.dropWhile p) = true
  | [], h => h
  | a :: rest, h => by
    rw [List.dropWhile_cons]
    by_cases hp : p a = true
    · rw [if_pos hp]
      exact noAdjUS_dropWhile p rest (noAdjUS_tail a rest h)
    · rw [if_neg hp]
      exact h

lemma head?_dropWhile_false (p : Char → Bool) :
    ∀ l : List Char, ∀ c, (l.dropWhile p).head? = some c → p c = false
  | [], c, h => by simp at h
  | a :: rest, c, h => by
    rw [List.dropWhile_cons] at h
    by_cases hp : p a = true
    · rw [if_pos hp] at h
      exact head?_dropWhile_false p rest c h
    · rw [if_neg hp] at h
      have : a = c := by simpa using h
      subst this
      exact Bool.not_eq_true _ ▸ hp

lemma dropWhile_eq_self_of_head (p : Char → Bool) (l : List Char)
    (h : ∀ c, l.head? = some c → p c = false) : l.dropWhile p = l := by
  cases l with
  | nil => rfl
  | cons a rest =>
    rw [List.dropWhile_cons, if_neg]
    rw [h a rfl]
    simp

lemma mem_dropTrailingUS : ∀ (l : List Char) (c : Char), c ∈ dropTrailingUS l → c ∈ l
  | [], c, h => by simp [dropTrailingUS] at h
  | a :: rest, c, h => by
    rw [dropTrailingUS] at h
    cases hd : dropTrailingUS rest with
    | nil =>
      rw [hd] at h
      by_cases ha : (a == '_') = true
      · rw [if_pos ha] at h; simp at h
      · rw [if_neg ha] at h
        have : c = a := by simpa using h
        simp [this]
    | cons d r =>
      rw [hd] at h
      rcases (by simpa using h : c = a ∨ c = d ∨ c ∈ r) with h1 | h1
      · simp [h1]
      · have : c ∈ dropTrailingUS rest := by
          rw [hd]
          simpa using h1
        exact List.mem_cons_of_mem _ (mem_dropTrailingUS rest c this)

lemma dropTrailingUS_head? : ∀ (l : List Char) (d : Char) (r : List Char),
    dropTrailingUS l = d :: r → l.head? = some d
  | [], d, r, h => by simp [dropTrailingUS] at h
  | a :: rest, d, r, h => by
    rw [dropTrailingUS] at h
    cases hd : dropTrailingUS rest with
    | nil =>
      rw [hd] at h
      by_cases ha : (a == '_') = true
      · rw [if_pos ha] at h; simp at h
      · rw [if_neg ha] at h
        have : a = d := by
          have := h
          simp at this
          exact this.1
        simp [this]
    | cons x t =>
      rw [hd] at h
      have : a = d := (List.cons.injEq _ _ _ _ ▸ h).1
      simp [this]

lemma noAdjUS_dropTrailingUS : ∀ l : List Char, noAdjUS l = true →
    noAdjUS (dropTrailingUS l) = true
  | [], h => h
  | a :: rest, h => by
    rw [dropTrailingUS]
    have ih := noAdjUS_dropTrailingUS rest (noAdjUS_tail a rest h)
    cases hd : dropTrailingUS rest with
    | nil =>
      by_cases ha : (a == '_') = true
      · rw [if_pos ha]; rfl
      · rw [if_neg ha]; rfl
    | cons d r =>
      rw [hd] at ih
      apply noAdjUS_cons _ _ ih
      intro x hx
      have hxd : d = x := by simpa using hx
      intro hcontra
      have hhead := dropTrailingUS_head? rest d r hd
      cases rest with
      | nil => simp at hhead
      | cons b t =>
        have hb : b = d := by simpa using hhead
        have h1 : (!(a == '_' && b == '_') && noAdjUS (b :: t)) = true := h
        have h2 := ((Bool.and_eq_true _ _).mp h1).1
        have hd_us : d = '_' := by rw [hxd]; exact hcontra.2
        rw [hb, hd_us, hcontra.1] at h2
        simp at h2

lemma getLast?_dropTrailingUS : ∀ l : List Char,
    ∀ x, (dropTrailingUS l).getLast? = some x → x ≠ '_'
  | [], x, h => by simp [dropTrailingUS] at h
  | a :: rest, x, h => by
    rw [dropTrailingUS] at h
    cases hd : dropTrailingUS rest with
    | nil =>
      rw [hd] at h
      by_cases ha : (a == '_') = true
      · rw [if_pos ha] at h; simp at h
      · rw [if_neg ha] at h
        have : a = x := by simpa using h
        subst this
        simpa using ha
    | cons d r =>
      rw [hd] at h
      have hlast : (d :: r).getLast? = some x := by
        rw [List.getLast?_cons_cons] at h
        exact h
      apply getLast?_dropTrailingUS rest x
      rw [hd]
      exact hlast

lemma dropTrailingUS_eq_self : ∀ l : List Char,
    (∀ x, l.getLast? = some x → x ≠ '_') → dropTrailingUS l = l
  | [], _ => rfl
  | a :: rest, h => by
    rw [dropTrailingUS]
    cases rest with
    | nil =>
      have ha : a ≠ '_' := h a rfl
      simp [dropTrailingUS, ha]
    | cons b t =>
      have ih : dropTrailingUS (b :: t) = b :: t := by
        apply dropTrailingUS_eq_self
        intro x hx
        apply h
        rw [List.getLast?_cons_cons]
        exact hx
      rw [ih]

lemma map_eq_self_of_fix {α : Type} {f : α → α} :
    ∀ l : List α, (∀ c ∈ l, f c = c) → l.map f = l
  | [], _ => rfl
  | a :: rest, h => by
    rw [List.map_cons, h a (by simp), map_eq_self_of_fix rest (fun c hc => h c (by simp [hc]))]

lemma pyLower_fix_of_slugOutput (c : Char) (h : isSlugOutputChar c = true) :
    pyLower c = c := by
  unfold pyLower
  rw [if_neg]
  unfold isSlugOutputChar isSlugChar at h
  rcases (Bool.or_eq_true _ _).mp h with h1 | h1
  · rcases (Bool.or_eq_true _ _).mp h1 with h2 | h2
    · have := (Bool.and_eq_true _ _).mp h2
      have ha := of_decide_eq_true this.1
      have hb := of_decide_eq_true this.2
      omega
    · have := (Bool.and_eq_true _ _).mp h2
      have ha := of_decide_eq_true this.1
      have hb := of_decide_eq_true this.2
      omega
  · have hc : c = '_' := eq_of_beq h1
    subst hc
    intro hcontra
    have : ('_'.toNat) = 95 := by decide
    omega

lemma subChar_fix_of_slugOutput (c : Char) (h : isSlugOutputChar c = true) :
    subChar c = c := by
  unfold subChar
  by_cases hs : isSlugChar c = true
  · rw [if_pos hs]
  · have hc : c = '_' := by
      unfold isSlugOutputChar at h
      rcases (Bool.or_eq_true _ _).mp h with h1 | h1
      · exact absurd h1 hs
      · exact eq_of_beq h1
    subst hc
    rfl

lemma slugify_chars (name : String) :
    ∀ c ∈ (slugify name).data, isSlugOutputChar c = true := by
  intro c hc
  have hc1 : c ∈ stripUS (collapseUS ((name.data.map pyLower).map subChar)) := hc
  have hc2 : c ∈ dropLeadingUS (collapseUS ((name.data.map pyLower).map subChar)) :=
    mem_dropTrailingUS _ c hc1
  have hc3 : c ∈ collapseUS ((name.data.map pyLower).map subChar) := by
    have hsuffix : List.IsSuffix (dropLeadingUS (collapseUS ((name.data.map pyLower).map subChar)))
        (collapseUS ((name.data.map pyLower).map subChar)) := List.dropWhile_suffix _
    exact hsuffix.subset hc2
  have hc4 : c ∈ (name.data.map pyLower).map subChar := mem_collapseUS _ c hc3
  rcases List.mem_map.mp hc4 with ⟨d, _, rfl⟩
  exact subChar_isSlugOutput d

lemma slugify_noAdj (name : String) : noAdjUS (slugify name).data = true := by
  show noAdjUS (stripUS (collapseUS ((name.data.map pyLower).map subChar))) = true
  unfold stripUS dropLeadingUS
  apply noAdjUS_dropTrailingUS
  apply noAdjUS_dropWhile
  exact noAdjUS_collapseUS _

lemma slugify_head (name : String) :
    ∀ c, (slugify name).data.head? = some c → (c == '_') = false := by
  intro c hc
  have hc1 : (stripUS (collapseUS ((name.data.map pyLower).map subChar))).head? = some c := hc
  unfold stripUS at hc1
  cases hd : dropTrailingUS (dropLeadingUS (collapseUS ((name.data.map pyLower).map subChar))) with
  | nil => rw [hd] at hc1; simp at hc1
  | cons d r =>
    rw [hd] at hc1
    have hcd : d = c := by simpa using hc1
    have hhead := dropTrailingUS_head? _ _ _ hd
    unfold dropLeadingUS at hhead
    have hres := head?_dropWhile_false (fun x => x == '_') _ d hhead
    rw [hcd] at hres
    exact hres

lemma slugify_getLast (name : String) :
    ∀ x, (slugify name).data.getLast? = some x → x ≠ '_' := by
  intro x hx
  exact getLast?_dropTrailingUS _ x hx

/-- `slugify` is idempotent. -/
lemma slugify_idem (name : String) : slugify (slugify name) = slugify name := by
  have hchars := slugify_chars name
  have hmap1 : (slugify name).data.map pyLower = (slugify name).data :=
    map_eq_self_of_fix _ (fun c hc => pyLower_fix_of_slugOutput c (hchars c hc))
  have hmap2 : (slugify name).data.map subChar = (slugify name).data :=
    map_eq_self_of_fix _ (fun c hc => subChar_fix_of_slugOutput c (hchars c hc))
  have hcoll : collapseUS (slugify name).data = (slugify name).data :=
    collapseUS_eq_self _ (slugify_noAdj name)
  have hdrop : dropLeadingUS (slugify name).data = (slugify name).data := by
    unfold dropLeadingUS
    exact dropWhile_eq_self_of_head _ _ (slugify_head name)
  have htrail : dropTrailingUS (slugify name).data = (slugify name).data :=
    dropTrailingUS_eq_self _ (slugify_getLast name)
  show String.mk (stripUS (collapseUS (((slugify name).data.map pyLower).map subChar))) =
    slugify name
  rw [hmap1, hmap2, hcoll]
  unfold stripUS
  rw [hdrop, htrail]

/-! ### Lemmas about the provisioner -/

lemma mem_addTableIfAbsent_self (t : String) (ts : List String) :
    t ∈ addTableIfAbsent t ts := by
  unfold addTableIfAbsent
  by_cases h : t ∈ ts
  · rwa [if_pos h]
  · rw [if_neg h]
    simp

lemma mem_addTableIfAbsent_of_mem {x : String} (t : String) {ts : List String}
    (h : x ∈ ts) : x ∈ addTableIfAbsent t ts := by
  unfold addTableIfAbsent
  by_cases ht : t ∈ ts
  · rwa [if_pos ht]
  · rw [if_neg ht]
    exact List.mem_append_left _ h

lemma addTableIfAbsent_of_mem {t : String} {ts : List String} (h : t ∈ ts) :
    addTableIfAbsent t ts = ts := by
  unfold addTableIfAbsent
  rw [if_pos h]

lemma addTables_mem_of_mem {x : String} :
    ∀ (names : List String) (ts : List String), x ∈ ts → x ∈ addTables names ts
  | [], _, h => h
  | n :: ns, ts, h =>
    addTables_mem_of_mem ns (addTableIfAbsent n ts) (mem_addTableIfAbsent_of_mem n h)

lemma addTables_names_mem :
    ∀ (names : List String) (ts : List String) (n : String), n ∈ names →
      n ∈ addTables names ts
  | [], _, _, h => by simp at h
  | m :: ns, ts, n, h => by
    rcases (by simpa using h : n = m ∨ n ∈ ns) with h1 | h1
    · subst h1
      exact addTables_mem_of_mem ns _ (mem_addTableIfAbsent_self n ts)
    · exact addTables_names_mem ns _ n h1

lemma addTables_eq_self :
    ∀ (names : List String) (ts : List String), (∀ n ∈ names, n ∈ ts) →
      addTables names ts = ts
  | [], _, _ => rfl
  | n :: ns, ts, h => by
    have hn : n ∈ ts := h n (by simp)
    show addTables ns (addTableIfAbsent n ts) = ts
    rw [addTableIfAbsent_of_mem hn]
    exact addTables_eq_self ns ts (fun m hm => h m (by simp [hm]))

lemma addTables_idem (names ts : List String) :
    addTables names (addTables names ts) = addTables names ts :=
  addTables_eq_self names _ (fun n hn => addTables_names_mem names ts n hn)

lemma provisionTables_idem (ts : TenantSchema) :
    provisionTables (provisionTables ts) = provisionTables ts := by
  unfold provisionTables
  simp only [TenantSchema.mk.injEq]
  refine ⟨addTables_idem _ _, addTableIfAbsent_of_mem (mem_addTableIfAbsent_self _ _), ?_⟩
  by_cases h : ts.developer_settings.any (fun r => r.id == 1) = true
  · simp [h]
  · rw [if_neg h]
    have hany : (ts.developer_settings ++ [defaultDevSettingsRow]).any
        (fun r => r.id == 1) = true := by
      rw [List.any_append]
      simp [defaultDevSettingsRow]
    rw [if_pos hany]

lemma provision_hoa_schema_super_admins (db : Database) (s : String) :
    (provision_hoa_schema db s).super_admins = db.super_admins := by
  unfold provision_hoa_schema
  by_cases h : db.schemas.any (fun p => p.1 == s) = true
  · simp [h]
  · simp [h]

lemma provision_hoa_schema_hoas (db : Database) (s : String) :
    (provision_hoa_schema db s).hoas = db.hoas := by
  unfold provision_hoa_schema
  by_cases h : db.schemas.any (fun p => p.1 == s) = true
  · simp [h]
  · simp [h]

lemma provision_hoa_schema_hoa_users (db : Database) (s : String) :
    (provision_hoa_schema db s).hoa_users = db.hoa_users := by
  unfold provision_hoa_schema
  by_cases h : db.schemas.any (fun p => p.1 == s) = true
  · simp [h]
  · simp [h]

lemma provision_hoa_schema_schemas (db : Database) (s : String) :
    (provision_hoa_schema db s).schemas =
      (if db.schemas.any (fun p => p.1 == s) then db.schemas
       else db.schemas ++ [(s, ⟨[], [], []⟩)]).map
        (fun p => if p.1 = s then (p.1, provisionTables p.2) else p) := by
  unfold provision_hoa_schema
  by_cases h : db.schemas.any (fun p => p.1 == s) = true
  · simp [h]
  · simp [h]

lemma provision_key_mem (db : Database) (s : String) :
    (provision_hoa_schema db s).schemas.any (fun p => p.1 == s) = true := by
  rw [provision_hoa_schema_schemas, List.any_map]
  by_cases h : db.schemas.any (fun p => p.1 == s) = true
  · rw [if_pos h]
    rw [List.any_eq_true] at h ⊢
    rcases h with ⟨p, hp, hps⟩
    refine ⟨p, hp, ?_⟩
    have hps' : p.1 = s := by simpa using hps
    simp [Function.comp, hps']
  · rw [if_neg h, List.any_append]
    simp [Function.comp]

lemma provision_of_key_mem (db : Database) (s : String)
    (h : db.schemas.any (fun p => p.1 == s) = true) :
    provision_hoa_schema db s =
      { db with schemas :=
          db.schemas.map (fun p => if p.1 = s then (p.1, provisionTables p.2) else p) } := by
  unfold provision_hoa_schema
  simp only [h, if_true]

lemma provision_hoa_schema_idem (db : Database) (s : String) :
    provision_hoa_schema (provision_hoa_schema db s) s = provision_hoa_schema db s := by
  have hfix : ∀ q ∈ (provision_hoa_schema db s).schemas,
      (if q.1 = s then (q.1, provisionTables q.2) else q) = q := by
    intro q hq
    rw [provision_hoa_schema_schemas] at hq
    rcases List.mem_map.mp hq with ⟨p, _, rfl⟩
    by_cases hp : p.1 = s
    · simp [hp, provisionTables_idem]
    · simp [hp]
  have hsch : (provision_hoa_schema db s).schemas.map
      (fun p => if p.1 = s then (p.1, provisionTables p.2) else p) =
      (provision_hoa_schema db s).schemas :=
    map_eq_self_of_fix _ hfix
  rw [provision_of_key_mem (provision_hoa_schema db s) s (provision_key_mem db s), hsch]

/-! ### Lemmas about the expiry enforcer -/

lemma expireHoaRow_idem (today : Int) (r : HoaRow) :
    expireHoaRow today (expireHoaRow today r) = expireHoaRow today r := by
  unfold expireHoaRow
  by_cases h : r.subscription_end < today ∧ r.enabled = true ∧ r.deleted_at = none
  · rw [if_pos h]
    have hfalse : ¬(({ r with enabled := false } : HoaRow).subscription_end < today ∧
        ({ r with enabled := false } : HoaRow).enabled = true ∧
        ({ r with enabled := false } : HoaRow).deleted_at = none) := by
      intro hc
      simp at hc
    rw [if_neg hfalse]
  · rw [if_neg h, if_neg h]

/-! ### Lemmas about the manage-HOA listing -/

lemma charListLt_asymm : ∀ a b : List Char, charListLt a b = true → charListLt b a = false
  | [], [], h => by simp [charListLt] at h
  | [], _ :: _, _ => rfl
  | _ :: _, [], h => by simp [charListLt] at h
  | a :: as, b :: bs, h => by
    unfold charListLt at h ⊢
    by_cases h1 : a.toNat < b.toNat
    · have h2 : ¬ b.toNat < a.toNat := by omega
      rw [if_neg h2, if_pos h1]
    · rw [if_neg h1] at h
      by_cases h2 : b.toNat < a.toNat
      · rw [if_pos h2] at h
        simp at h
      · rw [if_neg h2] at h
        rw [if_neg h2, if_neg h1]
        exact charListLt_asymm as bs h

lemma nameLt_asymm {a b : HoaRow} (h : nameLt a b = true) : nameLt b a = false :=
  charListLt_asymm _ _ h

lemma mem_insertByName (r : HoaRow) :
    ∀ (l : List HoaRow) (x : HoaRow), x ∈ insertByName r l ↔ x = r ∨ x ∈ l
  | [], x => by simp [insertByName]
  | a :: rest, x => by
    unfold insertByName
    by_cases h : nameLt a r = true
    · rw [if_pos h]
      simp only [List.mem_cons, mem_insertByName r rest x]
      tauto
    · rw [if_neg h]
      simp only [List.mem_cons]

lemma mem_sortByName : ∀ (l : List HoaRow) (x : HoaRow), x ∈ sortByName l ↔ x ∈ l
  | [], x => Iff.rfl
  | a :: rest, x => by
    unfold sortByName
    rw [mem_insertByName, mem_sortByName rest x]
    simp

/-- Adjacent-pair orderedness of a listing: no later row's name is
lexicographically below its predecessor's. -/
def sortedByName : List HoaRow → Bool
  | [] => true
  | [_] => true
  | a :: b :: rest => !nameLt b a && sortedByName (b :: rest)

lemma sortedByName_tail : ∀ (a : HoaRow) (l : List HoaRow),
    sortedByName (a :: l) = true → sortedByName l = true
  | _, [], _ => rfl
  | a, b :: rest, h => by
    have h1 : (!nameLt b a && sortedByName (b :: rest)) = true := h
    exact ((Bool.and_eq_true _ _).mp h1).2

lemma sortedByName_head_rel (a : HoaRow) (l : List HoaRow)
    (h : sortedByName (a :: l) = true) :
    ∀ y, l.head? = some y → nameLt y a = false := by
  intro y hy
  cases l with
  | nil => simp at hy
  | cons b rest =>
    have hb : b = y := by simpa using hy
    subst hb
    have h1 : (!nameLt b a && sortedByName (b :: rest)) = true := h
    have h2 := ((Bool.and_eq_true _ _).mp h1).1
    simpa using h2

lemma sortedByName_cons_of (x : HoaRow) (l : List HoaRow)
    (hl : sortedByName l = true)
    (hh : ∀ y, l.head? = some y → nameLt y x = false) :
    sortedByName (x :: l) = true := by
  cases l with
  | nil => rfl
  | cons b rest =>
    show (!nameLt b x && sortedByName (b :: rest)) = true
    rw [hh b rfl, hl]
    rfl

lemma insertByName_head? (r : HoaRow) :
    ∀ l : List HoaRow, (insertByName r l).head? = some r ∨ (insertByName r l).head? = l.head?
  | [] => Or.inl rfl
  | a :: rest => by
    unfold insertByName
    by_cases h : nameLt a r = true
    · right
      rw [if_pos h]
      rfl
    · left
      rw [if_neg h]
      rfl

lemma sortedByName_insertByName (r : HoaRow) :
    ∀ l : List HoaRow, sortedByName l = true → sortedByName (insertByName r l) = true
  | [], _ => rfl
  | a :: rest, h => by
    unfold insertByName
    by_cases hlt : nameLt a r = true
    · rw [if_pos hlt]
      have ih := sortedByName_insertByName r rest (sortedByName_tail a rest h)
      apply sortedByName_cons_of a _ ih
      intro y hy
      rcases insertByName_head? r rest with hh | hh
      · rw [hh] at hy
        have : r = y := by simpa using hy
        subst this
        exact nameLt_asymm hlt
      · rw [hh] at hy
        exact sortedByName_head_rel a rest h y hy
    · rw [if_neg hlt]
      show (!nameLt a r && sortedByName (a :: rest)) = true
      rw [h]
      have : nameLt a r = false := by
        cases hv : nameLt a r
        · rfl
        · exact absurd hv hlt
      rw [this]
      rfl

lemma sortedByName_sortByName : ∀ l : List HoaRow, sortedByName (sortByName l) = true
  | [] => rfl
  | a :: rest => sortedByName_insertByName a _ (sortedByName_sortByName rest)

/-! ### Lemmas about credential rotation -/

lemma head?_mem {α : Type} {l : List α} {a : α} (h : l.head? = some a) : a ∈ l := by
  cases l with
  | nil => simp at h
  | cons x t =>
    have hx : x = a := by simpa using h
    rw [← hx]
    simp

lemma rotateAdmins_eq (adminId : Nat) (nu hp : String) (l : List AdminRow) :
    rotateAdmins adminId nu hp l =
      l.map (fun a =>
        if a.id = adminId then (⟨a.id, nu, hp, true⟩ : AdminRow)
        else ⟨a.id, a.username, a.password, false⟩) := by
  unfold rotateAdmins
  rw [List.map_map]
  apply List.map_congr_left
  intro a _
  by_cases h : a.id = adminId
  · simp [Function.comp, h]
  · simp [Function.comp, h]

lemma rot_filter_len (adminId : Nat) (nu hp : String) :
    ∀ l : List AdminRow, (l.map (fun a => a.id)).Nodup →
      ((l.map (fun a =>
          if a.id = adminId then (⟨a.id, nu, hp, true⟩ : AdminRow)
          else ⟨a.id, a.username, a.password, false⟩)).filter
        (fun a => a.enabled)).length ≤ 1
  | [], _ => by simp
  | a :: rest, hnodup => by
    rw [List.map_cons] at hnodup
    have hpair := List.nodup_cons.mp hnodup
    rw [List.map_cons, List.filter_cons]
    by_cases h : a.id = adminId
    · have hrest : ((rest.map (fun b =>
          if b.id = adminId then (⟨b.id, nu, hp, true⟩ : AdminRow)
          else ⟨b.id, b.username, b.password, false⟩)).filter
            (fun a => a.enabled)) = [] := by
        rw [List.filter_eq_nil_iff]
        intro x hx
        rcases List.mem_map.mp hx with ⟨b, hb, rfl⟩
        have hb' : b.id ≠ adminId := by
          intro he
          apply hpair.1
          rw [← h] at he
          exact List.mem_map.mpr ⟨b, hb, he⟩
        rw [if_neg hb']
        simp
      simp [h, hrest]
    · have ih := rot_filter_len adminId nu hp rest hpair.2
      simp only [if_neg h]
      rw [if_neg (by simp)]
      exact ih

lemma rot_filter_auth (adminId : Nat) (nu hp : String) :
    ∀ l : List AdminRow, (∃ a ∈ l, a.id = adminId) →
      ∃ t, ((l.map (fun a =>
          if a.id = adminId then (⟨a.id, nu, hp, true⟩ : AdminRow)
          else ⟨a.id, a.username, a.password, false⟩)).filter
        (fun x => x.username == nu && x.enabled)) = (⟨adminId, nu, hp, true⟩ : AdminRow) :: t
  | [], h => by simp at h
  | a :: rest, h => by
    rw [List.map_cons, List.filter_cons]
    by_cases ha : a.id = adminId
    · rw [if_pos ha]
      rw [if_pos (by simp)]
      exact ⟨(rest.map (fun a =>
          if a.id = adminId then (⟨a.id, nu, hp, true⟩ : AdminRow)
          else ⟨a.id, a.username, a.password, false⟩)).filter
            (fun x => x.username == nu && x.enabled), by rw [ha]⟩
    · have h' : ∃ b ∈ rest, b.id = adminId := by
        rcases h with ⟨b, hb, hbid⟩
        rcases List.mem_cons.mp hb with rfl | hbr
        · exact absurd hbid ha
        · exact ⟨b, hbr, hbid⟩
      have ih := rot_filter_auth adminId nu hp rest h'
      simp only [if_neg ha]
      rw [if_neg (by simp)]
      exact ih

lemma rot_filter_other (adminId : Nat) (nu hp ou : String) (hne : ou ≠ nu)
    (l : List AdminRow) :
    ((l.map (fun a =>
        if a.id = adminId then (⟨a.id, nu, hp, true⟩ : AdminRow)
        else ⟨a.id, a.username, a.password, false⟩)).filter
      (fun x => x.username == ou && x.enabled)) = [] := by
  rw [List.filter_eq_nil_iff]
  intro x hx
  rcases List.mem_map.mp hx with ⟨b, _, rfl⟩
  by_cases hbid : b.id = adminId
  · rw [if_pos hbid]
    simp
    intro hcontra
    exact absurd hcontra.symm hne
  · rw [if_neg hbid]
    simp

lemma dashboard_security_post_reject (hash : String → String) (db : Database)
    (nu np : String) (h : nu.length < 3 ∨ np.length < 6) :
    dashboard_security_post hash db nu np = some (db, none) := by
  unfold dashboard_security_post
  rcases h with h | h
  · rw [if_pos h]
  · by_cases h3 : nu.length < 3
    · rw [if_pos h3]
    · rw [if_neg h3, if_pos h]

lemma dashboard_security_post_success (hash : String → String) (db : Database)
    (nu np : String) (admin : AdminRow)
    (h3 : ¬ nu.length < 3) (h6 : ¬ np.length < 6)
    (ha : (db.super_admins.filter (fun a => a.enabled)).head? = some admin) :
    dashboard_security_post hash db nu np =
      some ({ db with super_admins :=
                rotateAdmins admin.id nu (hash np) db.super_admins },
            some nu) := by
  unfold dashboard_security_post
  rw [if_neg h3, if_neg h6, ha]

lemma dashboard_security_post_inv (hash : String → String) (db : Database)
    (nu np : String) (db' : Database) (s : Option String)
    (h : dashboard_security_post hash db nu np = some (db', s)) :
    db' = db ∨
      ∃ admin, (db.super_admins.filter (fun a => a.enabled)).head? = some admin ∧
        db' = { db with super_admins :=
                  rotateAdmins admin.id nu (hash np) db.super_admins } := by
  unfold dashboard_security_post at h
  by_cases h3 : nu.length < 3
  · rw [if_pos h3] at h
    left
    have := (Option.some.injEq _ _).mp h
    exact (congrArg Prod.fst this).symm
  · rw [if_neg h3] at h
    by_cases h6 : np.length < 6
    · rw [if_pos h6] at h
      left
      have := (Option.some.injEq _ _).mp h
      exact (congrArg Prod.fst this).symm
    · rw [if_neg h6] at h
      cases ha : (db.super_admins.filter (fun a => a.enabled)).head? with
      | none =>
        rw [ha] at h
        exact absurd h (by simp)
      | some admin =>
        rw [ha] at h
        right
        refine ⟨admin, rfl, ?_⟩
        have := (Option.some.injEq _ _).mp h
        exact (congrArg Prod.fst this).symm

lemma authenticate_isSome_of (hash : String → String) (db : Database)
    (u p : String) (x : AdminRow)
    (hh : (db.super_admins.filter (fun a => a.username == u && a.enabled)).head? = some x)
    (hv : verify_password hash x.password p = true) :
    (authenticate hash db u p).isSome = true := by
  unfold authenticate
  rw [hh]
  show (if verify_password hash x.password p = true then some x else none).isSome = true
  rw [hv]
  rfl

lemma authenticate_none_of (hash : String → String) (db : Database) (u p : String)
    (h : ∀ x, (db.super_admins.filter (fun a => a.username == u && a.enabled)).head? = some x →
      verify_password hash x.password p = false) :
    authenticate hash db u p = none := by
  unfold authenticate
  cases hh : (db.super_admins.filter (fun a => a.username == u && a.enabled)).head? with
  | none => rfl
  | some x =>
    show (if verify_password hash x.password p = true then some x else none) = none
    rw [h x hh]
    simp

lemma authenticate_rot_new (hash : String → String) (db : Database)
    (nu np : String) (admin : AdminRow)
    (hlen : (hash np).length = 64)
    (hmem : ∃ a ∈ db.super_admins, a.id = admin.id) :
    (authenticate hash
      { db with super_admins := rotateAdmins admin.id nu (hash np) db.super_admins }
      nu np).isSome = true := by
  rcases rot_filter_auth admin.id nu (hash np) db.super_admins hmem with ⟨t, ht⟩
  apply authenticate_isSome_of hash _ nu np (⟨admin.id, nu, hash np, true⟩ : AdminRow)
  · show ((rotateAdmins admin.id nu (hash np) db.super_admins).filter
      (fun a => a.username == nu && a.enabled)).head? = _
    rw [rotateAdmins_eq, ht]
    rfl
  · unfold verify_password
    rw [if_neg (by rw [hlen]; simp)]
    simp

lemma authenticate_rot_old (hash : String → String) (db : Database)
    (nu np : String) (admin : AdminRow) (ou op : String)
    (hlen : (hash np).length = 64)
    (hdiff : ou ≠ nu ∨ hash op ≠ hash np) :
    authenticate hash
      { db with super_admins := rotateAdmins admin.id nu (hash np) db.super_admins }
      ou op = none := by
  apply authenticate_none_of
  intro x hh
  have hh' : ((rotateAdmins admin.id nu (hash np) db.super_admins).filter
      (fun a => a.username == ou && a.enabled)).head? = some x := hh
  rw [rotateAdmins_eq] at hh'
  rcases hdiff with hne | hph
  · rw [rot_filter_other admin.id nu (hash np) ou hne db.super_admins] at hh'
    simp at hh'
  · have hx := head?_mem hh'
    have hx2 := List.mem_filter.mp hx
    rcases List.mem_map.mp hx2.1 with ⟨b, _, hbx⟩
    by_cases hbid : b.id = admin.id
    · rw [if_pos hbid] at hbx
      rw [← hbx]
      show verify_password hash (hash np) op = false
      unfold verify_password
      rw [if_neg (by rw [hlen]; simp)]
      simp
      intro hcontra
      exact absurd hcontra.symm hph
    · rw [if_neg hbid] at hbx
      have hpred := hx2.2
      rw [← hbx] at hpred
      simp at hpred

/-! ### Lemmas about the delete handlers -/

lemma delete_hoa_post_eq (hash : String → String) (db : Database) (id : Nat)
    (password : String) (now : Int) (a : AdminRow) (hoa : HoaRow)
    (ha : (db.super_admins.filter (fun x => x.enabled)).head? = some a)
    (hv : verify_password hash a.password password = true)
    (hfind : db.hoas.find? (fun r => r.id == id) = some hoa) :
    delete_hoa_post hash db id password now =
      ({ db with hoas := db.hoas.map (fun r =>
          if r.id = id then { r with deleted_at := some now, enabled := false }
          else r) },
       Outcome.redirect) := by
  unfold delete_hoa_post
  rw [ha]
  show (if verify_password hash a.password password = true then _ else _) = _
  rw [if_pos hv, hfind]

lemma delete_hoa_post_reject (hash : String → String) (db : Database) (id : Nat)
    (password : String) (now : Int) (a : AdminRow)
    (ha : (db.super_admins.filter (fun x => x.enabled)).head? = some a)
    (hv : verify_password hash a.password password = false) :
    delete_hoa_post hash db id password now = (db, Outcome.errorView) := by
  unfold delete_hoa_post
  rw [ha]
  show (if verify_password hash a.password password = true then _ else _) = _
  rw [if_neg (by simp [hv])]

lemma delete_hoa_post_super_admins (hash : String → String) (db : Database)
    (id : Nat) (password : String) (now : Int) :
    ((delete_hoa_post hash db id password now).1).super_admins = db.super_admins := by
  unfold delete_hoa_post
  cases hh : (db.super_admins.filter (fun a => a.enabled)).head? with
  | none => rfl
  | some admin =>
    by_cases hv : verify_password hash admin.password password = true
    · cases hfind : db.hoas.find? (fun r => r.id == id) with
      | none => simp [hv]
      | some hoa => simp [hv]
    · simp [hv]

lemma permanent_delete_hoa_post_err (hash : String → String) (db : Database)
    (id : Nat) (password : String) (a : AdminRow)
    (ha : db.super_admins.head? = some a)
    (hv : verify_password hash a.password password = false) :
    permanent_delete_hoa_post hash db id password = (db, Outcome.errorView) := by
  unfold permanent_delete_hoa_post
  rw [ha]
  show (if verify_password hash a.password password = true then _ else _) = _
  rw [if_neg (by simp [hv])]

lemma permanent_delete_hoa_post_del (hash : String → String) (db : Database)
    (id : Nat) (password : String) (a : AdminRow) (hoa : HoaRow)
    (ha : db.super_admins.head? = some a)
    (hv : verify_password hash a.password password = true)
    (hfind : db.hoas.find? (fun r => r.id == id) = some hoa) :
    permanent_delete_hoa_post hash db id password =
      ({ db with
          schemas := db.schemas.filter (fun p => p.1 != hoa.schema_name),
          hoa_users := db.hoa_users.filter (fun u => u.hoa_id != id),
          hoas := db.hoas.filter (fun r => r.id != id) },
       Outcome.redirect) := by
  unfold permanent_delete_hoa_post
  rw [ha]
  show (if verify_password hash a.password password = true then _ else _) = _
  rw [if_pos hv, hfind]

lemma permanent_delete_hoa_post_super_admins (hash : String → String)
    (db : Database) (id : Nat) (password : String) :
    ((permanent_delete_hoa_post hash db id password).1).super_admins =
      db.super_admins := by
  unfold permanent_delete_hoa_post
  cases hh : db.super_admins.head? with
  | none => rfl
  | some admin =>
    by_cases hv : verify_password hash admin.password password = true
    · cases hfind : db.hoas.find? (fun r => r.id == id) with
      | none => simp [hv]
      | some hoa => simp [hv]
    · simp [hv]

lemma hoa_create_post_hoas (db : Database) (newId : Nat) (name : String)
    (start end_ : Int) (pt bc lu : Option String) (ca : Int) :
    (hoa_create_post db newId name start end_ pt bc lu ca).hoas =
      db.hoas ++ [{ id := newId, name := name,
                    schema_name := "hoa_" ++ slugify name,
                    subscription_start := start, subscription_end := end_,
                    enabled := true,
                    portal_title := some (formOr pt name),
                    brand_color := some (formOr bc "#2563eb"),
                    logo_url := lu, created_at := ca, deleted_at := none }] := by
  show (provision_hoa_schema _ _).hoas = _
  rw [provision_hoa_schema_hoas]

lemma hoa_create_post_super_admins (db : Database) (newId : Nat) (name : String)
    (start end_ : Int) (pt bc lu : Option String) (ca : Int) :
    (hoa_create_post db newId name start end_ pt bc lu ca).super_admins =
      db.super_admins := by
  show (provision_hoa_schema _ _).super_admins = _
  rw [provision_hoa_schema_super_admins]

lemma enforce_subscription_expiry_idem (today : Int) (db : Database) :
    enforce_subscription_expiry today (enforce_subscription_expiry today db) =
      enforce_subscription_expiry today db := by
  show ({ enforce_subscription_expiry today db with
      hoas := (db.hoas.map (expireHoaRow today)).map (expireHoaRow today) } : Database) =
    enforce_subscription_expiry today db
  rw [List.map_map]
  rw [show db.hoas.map (expireHoaRow today ∘ expireHoaRow today) =
      db.hoas.map (expireHoaRow today) from
    List.map_congr_left (fun r _ => expireHoaRow_idem today r)]
  rfl

/-! ### Claim theorems -/

/-- C1: for every tenant id present in the registry, POST
`/permanent-delete-hoa/{id}` with a password that fails verification
(against the administrator row the handler reads) leaves the whole
database unchanged and returns the error view; with a password that
verifies, it removes all three: no registry row with that id, no
`hoa_users` row of that tenant, and no schema named by the tenant's
`schema_name` survive, and the handler redirects. -/
theorem C1_hard_delete_auth (hash : String → String) (db : Database) (id : Nat)
    (password : String) (a : AdminRow) (ha : db.super_admins.head? = some a) :
    (verify_password hash a.password password = false →
      permanent_delete_hoa_post hash db id password = (db, Outcome.errorView))
    ∧ (∀ hoa, verify_password hash a.password password = true →
        db.hoas.find? (fun r => r.id == id) = some hoa →
        (∀ r ∈ (permanent_delete_hoa_post hash db id password).1.hoas, r.id ≠ id)
        ∧ (∀ u ∈ (permanent_delete_hoa_post hash db id password).1.hoa_users,
            u.hoa_id ≠ id)
        ∧ (∀ q ∈ (permanent_delete_hoa_post hash db id password).1.schemas,
            q.1 ≠ hoa.schema_name)
        ∧ (permanent_delete_hoa_post hash db id password).2 = Outcome.redirect) := by
  constructor
  · intro hv
    exact permanent_delete_hoa_post_err hash db id password a ha hv
  · intro hoa hv hfind
    rw [permanent_delete_hoa_post_del hash db id password a hoa ha hv hfind]
    refine ⟨?_, ?_, ?_, rfl⟩
    · intro r hr
      have h2 := (List.mem_filter.mp hr).2
      simpa using h2
    · intro u hu
      have h2 := (List.mem_filter.mp hu).2
      simpa using h2
    · intro q hq
      have h2 := (List.mem_filter.mp hq).2
      simpa using h2

theorem C1_hard_delete_auth_witness :
    permanent_delete_hoa_post testHash dbW 1 "wrong-pw" = (dbW, Outcome.errorView)
    ∧ (∀ u ∈ (permanent_delete_hoa_post testHash dbW 1 "admin123").1.hoa_users,
        u.hoa_id ≠ 1)
    ∧ (∀ q ∈ (permanent_delete_hoa_post testHash dbW 1 "admin123").1.schemas,
        q.1 ≠ hoaW.schema_name) :=
  ⟨(C1_hard_delete_auth testHash dbW 1 "wrong-pw" adminW (by decide)).1 (by decide),
   ((C1_hard_delete_auth testHash dbW 1 "admin123" adminW (by decide)).2 hoaW
      (by decide) (by decide)).2.1,
   ((C1_hard_delete_auth testHash dbW 1 "admin123" adminW (by decide)).2 hoaW
      (by decide) (by decide)).2.2.1⟩

/-- C2: `enforce_subscription_expiry` leaves the row count and every
other table unchanged, flips `enabled` to false exactly on the rows
that are expired (`subscription_end < today`), currently enabled and
not soft-deleted, leaves every other row identical, and is
idempotent. -/
theorem C2_expiry_enforcer (today : Int) (db : Database) :
    (∀ (i : Nat) (r : HoaRow), db.hoas[i]? = some r →
      (enforce_subscription_expiry today db).hoas[i]? =
        some (if r.subscription_end < today ∧ r.enabled = true ∧ r.deleted_at = none
              then { r with enabled := false } else r))
    ∧ (enforce_subscription_expiry today db).super_admins = db.super_admins
    ∧ (enforce_subscription_expiry today db).hoa_users = db.hoa_users
    ∧ (enforce_subscription_expiry today db).schemas = db.schemas
    ∧ enforce_subscription_expiry today (enforce_subscription_expiry today db) =
        enforce_subscription_expiry today db := by
  refine ⟨?_, rfl, rfl, rfl, enforce_subscription_expiry_idem today db⟩
  intro i r hr
  show (db.hoas.map (expireHoaRow today))[i]? = _
  rw [List.getElem?_map, hr]
  rfl

theorem C2_expiry_enforcer_witness :
    (enforce_subscription_expiry 20 dbW2).hoas[0]? =
      some { rowW2 with enabled := false } := by
  exact ((C2_expiry_enforcer 20 dbW2).1 0 rowW2 rfl).trans (by decide)

/-- C10: POST `/dashboard/manage-hoa/{id}/edit` overwrites both
subscription dates with the submitted values and unconditionally sets
`enabled := true` on the row with the given id, leaves every other row
and every other table unchanged, with no hypothesis whatsoever relating
`start`, `end` and the current date (no validation). -/
theorem C10_edit_subscription (db : Database) (id : Nat) (start end_ : Int) :
    (∀ (i : Nat) (r : HoaRow), db.hoas[i]? = some r →
      (edit_hoa_post db id start end_).hoas[i]? =
        some (if r.id = id then
                { r with subscription_start := start, subscription_end := end_,
                         enabled := true }
              else r))
    ∧ (edit_hoa_post db id start end_).super_admins = db.super_admins
    ∧ (edit_hoa_post db id start end_).hoa_users = db.hoa_users
    ∧ (edit_hoa_post db id start end_).schemas = db.schemas := by
  refine ⟨?_, rfl, rfl, rfl⟩
  intro i r hr
  show (db.hoas.map _)[i]? = _
  rw [List.getElem?_map, hr]
  rfl

theorem C10_edit_subscription_witness :
    (edit_hoa_post dbW10 7 100 (-50)).hoas[0]? =
      some { rowW10 with subscription_start := 100, subscription_end := -50,
                         enabled := true } := by
  exact ((C10_edit_subscription dbW10 7 100 (-50)).1 0 rowW10 rfl).trans (by decide)

/-- C3 counterexample: rotating to the *same* credentials is accepted by
the handler (username length 5 ≥ 3, password length 9 ≥ 6), and
afterwards the prior password still authenticates — so "afterwards the
prior password no longer authenticates" is false as a universal
statement about valid rotations. -/
theorem C3_counterexample :
    dashboard_security_post testHash dbW3 "admin" "secret123" = some (dbW3, some "admin")
    ∧ (authenticate testHash dbW3 "admin" "secret123").isSome = true := by
  constructor
  · decide
  · decide

/-- C3 (amended): a new password whose stripped form has length 5 is
rejected with the credential store and session untouched (hence the
prior credential still authenticates); with a new username of length
≥ 3 and a new password of length ≥ 6 the rotation goes through, the
session identity becomes the new username, the new credential
authenticates, and the prior credential no longer authenticates
*provided it differs from the new one* (different username, or
different password hash). -/
theorem C3_rotate_credentials (hash : String → String) (db : Database) :
    (∀ u p : String, (pyStrip p).length = 5 →
      dashboard_security_post hash db (pyStrip u) (pyStrip p) = some (db, none))
    ∧ (∀ (u p : String) (admin : AdminRow) (op : String),
        (db.super_admins.filter (fun a => a.enabled)).head? = some admin →
        3 ≤ u.length → 6 ≤ p.length → (hash p).length = 64 →
        ∃ db', dashboard_security_post hash db u p = some (db', some u)
          ∧ (authenticate hash db' u p).isSome = true
          ∧ ((admin.username ≠ u ∨ hash op ≠ hash p) →
              authenticate hash db' admin.username op = none)) := by
  constructor
  · intro u p hp
    apply dashboard_security_post_reject
    right
    rw [hp]
    omega
  · intro u p admin op hadm h3 h6 hlen
    have h3' : ¬ u.length < 3 := by omega
    have h6' : ¬ p.length < 6 := by omega
    refine ⟨{ db with
              super_admins := rotateAdmins admin.id u (hash p) db.super_admins },
            ?_, ?_, ?_⟩
    · exact dashboard_security_post_success hash db u p admin h3' h6' hadm
    · apply authenticate_rot_new hash db u p admin hlen
      exact ⟨admin, (List.mem_filter.mp (head?_mem hadm)).1, rfl⟩
    · intro hdiff
      exact authenticate_rot_old hash db u p admin admin.username op hlen hdiff

theorem C3_rotate_credentials_witness :
    dashboard_security_post testHash dbW3b (pyStrip " ab ") (pyStrip " 12345 ") =
      some (dbW3b, none)
    ∧ ∃ db', dashboard_security_post testHash dbW3b "newadmin" "newpass123" =
          some (db', some "newadmin")
        ∧ (authenticate testHash db' "newadmin" "newpass123").isSome = true
        ∧ ((("admin" : String) ≠ "newadmin" ∨ testHash "oldpass1" ≠ testHash "newpass123") →
            authenticate testHash db' "admin" "oldpass1" = none) :=
  ⟨(C3_rotate_credentials testHash dbW3b).1 " ab " " 12345 " (by decide),
   (C3_rotate_credentials testHash dbW3b).2 "newadmin" "newpass123"
     ⟨1, "admin", testHash "oldpass1", true⟩ "oldpass1"
     (by decide) (by decide) (by decide) (by decide)⟩

/-- C4: the claim says hard delete re-authenticates against the
*currently enabled* administrator credential.  The code reads `SELECT
password FROM public.super_admins LIMIT 1` with no `enabled` filter, so
on a state whose first physical row is a stale disabled credential,
hard delete rejects the enabled credential ("newpass1") and accepts the
stale disabled one ("oldpass1") — while the soft-delete route, which
does filter `enabled=TRUE`, accepts exactly the enabled credential. -/
theorem C4_reauth_checks_first_row :
    permanent_delete_hoa_post testHash dbW4 1 "newpass1" = (dbW4, Outcome.errorView)
    ∧ (permanent_delete_hoa_post testHash dbW4 1 "oldpass1").2 = Outcome.redirect
    ∧ (permanent_delete_hoa_post testHash dbW4 1 "oldpass1").1.hoas = []
    ∧ (delete_hoa_post testHash dbW4 1 "newpass1" 50).2 = Outcome.redirect
    ∧ (delete_hoa_post testHash dbW4 1 "oldpass1" 50).2 = Outcome.errorView := by
  refine ⟨by decide, by decide, by decide, by decide, by decide⟩

/-- C5: POST `/delete-hoa/{id}` with a password verifying against the
enabled administrator row, on a tenant present in the registry, only
soft-deletes: the tenant's row gets `deleted_at := now` and
`enabled := false`, every other row is untouched, and the tenant's
schema, the `hoa_users` table and the `super_admins` table are left
exactly as they were. -/
theorem C5_soft_delete_only (hash : String → String) (db : Database) (id : Nat)
    (password : String) (now : Int) (a : AdminRow) (hoa : HoaRow)
    (ha : (db.super_admins.filter (fun x => x.enabled)).head? = some a)
    (hv : verify_password hash a.password password = true)
    (hfind : db.hoas.find? (fun r => r.id == id) = some hoa) :
    (delete_hoa_post hash db id password now).1.hoas =
      db.hoas.map (fun r =>
        if r.id = id then { r with deleted_at := some now, enabled := false } else r)
    ∧ (delete_hoa_post hash db id password now).1.schemas = db.schemas
    ∧ (delete_hoa_post hash db id password now).1.hoa_users = db.hoa_users
    ∧ (delete_hoa_post hash db id password now).1.super_admins = db.super_admins
    ∧ (delete_hoa_post hash db id password now).2 = Outcome.redirect := by
  rw [delete_hoa_post_eq hash db id password now a hoa ha hv hfind]
  exact ⟨rfl, rfl, rfl, rfl, rfl⟩

theorem C5_soft_delete_only_witness :
    (delete_hoa_post testHash dbW 1 "admin123" 50).1.schemas = dbW.schemas
    ∧ (delete_hoa_post testHash dbW 1 "admin123" 50).1.hoa_users = dbW.hoa_users :=
  ⟨(C5_soft_delete_only testHash dbW 1 "admin123" 50 adminW hoaW
      (by decide) (by decide) (by decide)).2.1,
   (C5_soft_delete_only testHash dbW 1 "admin123" 50 adminW hoaW
      (by decide) (by decide) (by decide)).2.2.1⟩

/-- C6: soft-deleting a tenant that is present in the registry (with a
verified administrator password) removes it from the manage-HOA
listing, which shows only rows with `deleted_at IS NULL`; a subsequent
restore puts it back in the listing with `deleted_at` cleared and
`enabled = true`; and the listing is ordered by name. -/
theorem C6_soft_delete_restore_listing (hash : String → String) (db : Database)
    (id : Nat) (password : String) (now : Int) (a : AdminRow) (hoa : HoaRow)
    (ha : (db.super_admins.filter (fun x => x.enabled)).head? = some a)
    (hv : verify_password hash a.password password = true)
    (hfind : db.hoas.find? (fun r => r.id == id) = some hoa) :
    (∀ r ∈ manage_hoa_listing (delete_hoa_post hash db id password now).1, r.id ≠ id)
    ∧ (∃ r ∈ manage_hoa_listing
          (restore_hoa (delete_hoa_post hash db id password now).1 id),
        r.id = id ∧ r.deleted_at = none ∧ r.enabled = true)
    ∧ (∀ r ∈ manage_hoa_listing
          (restore_hoa (delete_hoa_post hash db id password now).1 id),
        r.id = id → r.deleted_at = none ∧ r.enabled = true)
    ∧ sortedByName (manage_hoa_listing
        (restore_hoa (delete_hoa_post hash db id password now).1 id)) = true := by
  have hdb1 : (delete_hoa_post hash db id password now).1 =
      { db with hoas := db.hoas.map (fun r =>
          if r.id = id then { r with deleted_at := some now, enabled := false }
          else r) } := by
    rw [delete_hoa_post_eq hash db id password now a hoa ha hv hfind]
  have hhoa_mem : hoa ∈ db.hoas := List.mem_of_find?_eq_some hfind
  have hhoa_id : hoa.id = id := by simpa using List.find?_some hfind
  refine ⟨?_, ?_, ?_, sortedByName_sortByName _⟩
  · intro r hr
    rw [hdb1] at hr
    unfold manage_hoa_listing at hr
    rw [mem_sortByName] at hr
    have hr2 := List.mem_filter.mp hr
    rcases List.mem_map.mp hr2.1 with ⟨r0, _, hre⟩
    by_cases h0 : r0.id = id
    · exfalso
      have hdel_at := hr2.2
      rw [← hre, if_pos h0] at hdel_at
      simp at hdel_at
    · rw [← hre, if_neg h0]
      exact h0
  · have h1 : ({ hoa with deleted_at := some now, enabled := false } : HoaRow) ∈
        (delete_hoa_post hash db id password now).1.hoas := by
      rw [hdb1]
      exact List.mem_map.mpr ⟨hoa, hhoa_mem, by rw [if_pos hhoa_id]⟩
    have h2 : ({ hoa with deleted_at := none, enabled := true } : HoaRow) ∈
        (restore_hoa (delete_hoa_post hash db id password now).1 id).hoas := by
      show _ ∈ (delete_hoa_post hash db id password now).1.hoas.map
        (fun r => if r.id = id then { r with deleted_at := none, enabled := true }
                  else r)
      refine List.mem_map.mpr
        ⟨{ hoa with deleted_at := some now, enabled := false }, h1, ?_⟩
      have hxid : ({ hoa with deleted_at := some now, enabled := false } : HoaRow).id = id :=
        hhoa_id
      simp only [if_pos hxid]
    refine ⟨{ hoa with deleted_at := none, enabled := true }, ?_, hhoa_id, rfl, rfl⟩
    unfold manage_hoa_listing
    rw [mem_sortByName]
    exact List.mem_filter.mpr ⟨h2, by simp⟩
  · intro r hr hrid
    unfold manage_hoa_listing at hr
    rw [mem_sortByName] at hr
    have hr2 := List.mem_filter.mp hr
    have hrmem : r ∈ (delete_hoa_post hash db id password now).1.hoas.map
        (fun x => if x.id = id then { x with deleted_at := none, enabled := true }
                  else x) := hr2.1
    rcases List.mem_map.mp hrmem with ⟨x, _, hxe⟩
    by_cases hxid : x.id = id
    · rw [if_pos hxid] at hxe
      rw [← hxe]
      exact ⟨rfl, rfl⟩
    · rw [if_neg hxid] at hxe
      rw [← hxe] at hrid
      exact absurd hrid hxid

theorem C6_soft_delete_restore_listing_witness :
    ∃ r ∈ manage_hoa_listing
        (restore_hoa (delete_hoa_post testHash dbW 1 "admin123" 50).1 1),
      r.id = 1 ∧ r.deleted_at = none ∧ r.enabled = true :=
  (C6_soft_delete_restore_listing testHash dbW 1 "admin123" 50 adminW hoaW
    (by decide) (by decide) (by decide)).2.1

/-- C7: "at most one enabled administrator row" is preserved by the
bootstrap seeding (which only inserts when no enabled row exists) and
by credential rotation (disable all, then re-enable exactly the row
with the fetched id — unique because `id` is the primary key, which the
`Nodup` hypothesis encodes); and no other operation of the system
touches the `super_admins` table at all. -/
theorem C7_admin_invariant_preserved (hash : String → String) (db : Database) :
    (∀ newId : Nat, adminInvariant db →
      adminInvariant (init_management_schema hash db newId))
    ∧ (∀ (u p : String) (db' : Database) (s : Option String),
        (db.super_admins.map (fun a => a.id)).Nodup → adminInvariant db →
        dashboard_security_post hash db u p = some (db', s) → adminInvariant db')
    ∧ (∀ today : Int,
        (enforce_subscription_expiry today db).super_admins = db.super_admins)
    ∧ (∀ (newId : Nat) (name : String) (start end_ : Int)
        (pt bc lu : Option String) (ca : Int),
        (hoa_create_post db newId name start end_ pt bc lu ca).super_admins =
          db.super_admins)
    ∧ (∀ (newId hoa_id : Nat) (email pw : String) (ca : Int),
        (hoa_user_create_post db newId hoa_id email pw ca).super_admins =
          db.super_admins)
    ∧ (∀ id : Nat, (toggle_hoa db id).super_admins = db.super_admins)
    ∧ (∀ id : Nat, (toggle_user db id).super_admins = db.super_admins)
    ∧ (∀ (id : Nat) (start end_ : Int),
        (edit_hoa_post db id start end_).super_admins = db.super_admins)
    ∧ (∀ id : Nat, (delete_user db id).super_admins = db.super_admins)
    ∧ (∀ id : Nat, (restore_hoa db id).super_admins = db.super_admins)
    ∧ (∀ (id : Nat) (pw : String) (now : Int),
        ((delete_hoa_post hash db id pw now).1).super_admins = db.super_admins)
    ∧ (∀ (id : Nat) (pw : String),
        ((permanent_delete_hoa_post hash db id pw).1).super_admins =
          db.super_admins)
    ∧ (∀ s : String, (provision_hoa_schema db s).super_admins = db.super_admins) := by
  refine ⟨?_, ?_, fun _ => rfl, fun newId name start end_ pt bc lu ca =>
      hoa_create_post_super_admins db newId name start end_ pt bc lu ca,
    fun _ _ _ _ _ => rfl, fun _ => rfl, fun _ => rfl, fun _ _ _ => rfl,
    fun _ => rfl, fun _ => rfl,
    fun id pw now => delete_hoa_post_super_admins hash db id pw now,
    fun id pw => permanent_delete_hoa_post_super_admins hash db id pw,
    fun s => provision_hoa_schema_super_admins db s⟩
  · intro newId hinv
    unfold init_management_schema
    by_cases h : ((db.super_admins.filter (fun a => a.enabled)).head?).isSome = true
    · rw [if_pos h]
      exact hinv
    · rw [if_neg h]
      show ((db.super_admins ++ [(⟨newId, "admin", hash "admin123", true⟩ : AdminRow)]).filter
        (fun a => a.enabled)).length ≤ 1
      rw [List.filter_append]
      have hnone : (db.super_admins.filter (fun a => a.enabled)).head? = none := by
        cases hv : (db.super_admins.filter (fun a => a.enabled)).head? with
        | none => rfl
        | some x => rw [hv] at h; simp at h
      rw [List.head?_eq_none_iff.mp hnone]
      simp
  · intro u p db' s hnodup hinv heq
    rcases dashboard_security_post_inv hash db u p db' s heq with h | ⟨admin, _, hdb'⟩
    · rw [h]
      exact hinv
    · rw [hdb']
      show ((rotateAdmins admin.id u (hash p) db.super_admins).filter
        (fun a => a.enabled)).length ≤ 1
      rw [rotateAdmins_eq]
      exact rot_filter_len admin.id u (hash p) db.super_admins hnodup

theorem C7_admin_invariant_preserved_witness :
    adminInvariant (init_management_schema testHash (⟨[], [], [], []⟩ : Database) 3)
    ∧ adminInvariant dbW7rot
    ∧ (toggle_hoa dbW7 5).super_admins = dbW7.super_admins :=
  ⟨(C7_admin_invariant_preserved testHash ⟨[], [], [], []⟩).1 3 (by decide),
   (C7_admin_invariant_preserved testHash dbW7).2.1 "newadmin" "newpass123" dbW7rot
     (some "newadmin") (by decide) (by decide) (by decide),
   (C7_admin_invariant_preserved testHash dbW7).2.2.2.2.2.1 5⟩

/-- C8: `provision_hoa_schema` is safely re-runnable: running it twice
on the same schema name gives exactly the same database state as
running it once; and its final statement inserts the developer_settings
row with id 1 when absent and leaves the table untouched when a row
with id 1 is already there. -/
theorem C8_provision_rerunnable (db : Database) (s : String) (ts : TenantSchema) :
    provision_hoa_schema (provision_hoa_schema db s) s = provision_hoa_schema db s
    ∧ (∃ r ∈ (provisionTables ts).developer_settings, r.id = 1)
    ∧ ((∃ r ∈ ts.developer_settings, r.id = 1) →
        (provisionTables ts).developer_settings = ts.developer_settings) := by
  refine ⟨provision_hoa_schema_idem db s, ?_, ?_⟩
  · show ∃ r ∈ (if ts.developer_settings.any (fun r => r.id == 1)
        then ts.developer_settings
        else ts.developer_settings ++ [defaultDevSettingsRow]), r.id = 1
    by_cases h : ts.developer_settings.any (fun r => r.id == 1) = true
    · rw [if_pos h]
      rcases List.any_eq_true.mp h with ⟨r, hr, hr1⟩
      exact ⟨r, hr, by simpa using hr1⟩
    · rw [if_neg h]
      exact ⟨defaultDevSettingsRow, by simp, rfl⟩
  · intro hex
    rcases hex with ⟨r, hr, hr1⟩
    show (if ts.developer_settings.any (fun r => r.id == 1)
        then ts.developer_settings
        else ts.developer_settings ++ [defaultDevSettingsRow]) = ts.developer_settings
    rw [if_pos (List.any_eq_true.mpr ⟨r, hr, by simpa using hr1⟩)]

theorem C8_provision_rerunnable_witness :
    (provisionTables ⟨[], [], [⟨1, true, 5, 2, none⟩]⟩).developer_settings =
      [⟨1, true, 5, 2, none⟩] :=
  (C8_provision_rerunnable ⟨[], [], [], []⟩ "hoa_x"
      ⟨[], [], [⟨1, true, 5, 2, none⟩]⟩).2.2
    ⟨⟨1, true, 5, 2, none⟩, by simp, rfl⟩

/-- C9: `slugify` is idempotent, its output consists only of lowercase
alphanumerics and underscores, the example "Oak Ridge HOA" slugs to
"oak_ridge_hoa", and the tenant row created by the hoa-create handler
carries `schema_name = "hoa_" ++ slugify name`. -/
theorem C9_slugify_schema_name (name : String) :
    slugify (slugify name) = slugify name
    ∧ (∀ c ∈ (slugify name).data, isSlugOutputChar c = true)
    ∧ slugify "Oak Ridge HOA" = "oak_ridge_hoa"
    ∧ (∀ (db : Database) (newId : Nat) (start end_ : Int)
        (pt bc lu : Option String) (ca : Int),
        ∃ r ∈ (hoa_create_post db newId name start end_ pt bc lu ca).hoas,
          r.name = name ∧ r.schema_name = "hoa_" ++ slugify name) := by
  refine ⟨slugify_idem name, slugify_chars name, by decide, ?_⟩
  intro db newId start end_ pt bc lu ca
  rw [show (hoa_create_post db newId name start end_ pt bc lu ca).hoas = _ from
    hoa_create_post_hoas db newId name start end_ pt bc lu ca]
  refine ⟨{ id := newId, name := name, schema_name := "hoa_" ++ slugify name,
            subscription_start := start, subscription_end := end_, enabled := true,
            portal_title := some (formOr pt name),
            brand_color := some (formOr bc "#2563eb"),
            logo_url := lu, created_at := ca, deleted_at := none },
          List.mem_append_right _ (by simp), rfl, rfl⟩

theorem C9_slugify_schema_name_witness :
    slugify (slugify "Oak Ridge HOA") = slugify "Oak Ridge HOA"
    ∧ isSlugOutputChar 'o' = true :=
  ⟨(C9_slugify_schema_name "Oak Ridge HOA").1,
   (C9_slugify_schema_name "Oak Ridge HOA").2.1 'o' (by decide)⟩

end ManagementApp
